import Mathlib

/-!
Shallow embedding of the SLCAN framing codec and channel-multiplexing layer
of drivers/net/can/slcan.c.

Bytes are modelled as natural numbers (ASCII codes).  Frequently used codes:
13 = CR, 7 = BEL, 116 = t, 84 = T, 114 = r, 82 = R, 48..57 = 0..9,
65..70 = A..F, 97..102 = a..f.

The C buffer rbuff is modelled as a List Nat; reads beyond the list return 0
(the C code only reads inside the accumulated region for the inputs the
theorems quantify over).
-/

/-- Receive buffer capacity: sizeof("0T1111222281122334455667788EA5F\x0d") + 1
(32 characters + NUL terminator + 1). -/
def SLC_MTU : Nat := 34

def CAN_EFF_FLAG : Nat := 0x80000000
def CAN_RTR_FLAG : Nat := 0x40000000
def CAN_ERR_FLAG : Nat := 0x20000000
def CAN_SFF_MASK : Nat := 0x7FF
def CAN_EFF_MASK : Nat := 0x1FFFFFFF

/-- A CAN frame as in struct can_frame: the raw can_id word (flags included),
the data length code and the eight payload bytes. -/
structure CanFrame where
  can_id : Nat
  can_dlc : Nat
  data : List Nat
deriving Repr, DecidableEq

/-- Uppercase hexadecimal digit character of a value below 16 (printf %X). -/
def hexDigitChar (n : Nat) : Nat := if n < 10 then 48 + n else 55 + n

/-- Fixed-width uppercase hexadecimal rendering, most significant digit
first: printf with %03X and %08X applied to values masked below the width,
and %02X applied to a u8. -/
def hexPad : Nat → Nat → List Nat
  | 0, _ => []
  | w+1, v => hexDigitChar ((v >>> (4*w)) % 16) :: hexPad w v

def decStrAux : Nat → Nat → List Nat
  | 0, _ => []
  | fuel+1, n => if n < 10 then [48 + n] else decStrAux fuel (n / 10) ++ [48 + n % 10]

/-- Decimal rendering of a nonnegative value, printf %d. -/
def decStr (n : Nat) : List Nat := decStrAux (n + 1) n

/-- hex_to_bin from the kernel library: value of one hexadecimal character,
accepting 0-9, a-f and A-F; none on any other byte. -/
def hexVal (c : Nat) : Option Nat :=
  if 48 ≤ c ∧ c ≤ 57 then some (c - 48)
  else if 97 ≤ c ∧ c ≤ 102 then some (c - 87)
  else if 65 ≤ c ∧ c ≤ 70 then some (c - 55)
  else none

def isHexChar (c : Nat) : Bool := (hexVal c).isSome


def parseStep (acc : Option Nat) (c : Nat) : Option Nat :=
  match acc, hexVal c with
  | some a, some v => some (a * 16 + v)
  | _, _ => none

/-- Modelled from the spec: strict_strtoul with base 16 (the kernel string
parser is not part of the sources under scrutiny).  Per the spec the id span
"is parsed as hexadecimal" and "a non-hex character anywhere in this span
discards the frame"; an empty string yields no value. -/
def parseHexStr (l : List Nat) : Option Nat :=
  if l = [] then none
  else l.foldl parseStep (some 0)

/-- The payload loop of slc_bump: starting at buffer position pos, decode n
bytes from 2n hexadecimal characters; data[i] = (hi << 4) | lo. -/
def decodeData (rb : List Nat) : Nat → Nat → Option (List Nat)
  | _, 0 => some []
  | pos, n+1 =>
    match hexVal (rb.getD pos 0), hexVal (rb.getD (pos+1) 0) with
    | some hi, some lo =>
      match decodeData rb (pos+2) n with
      | some rest => some (((hi <<< 4) ||| lo) :: rest)
      | none => none
    | _, _ => none

def isDigitB (c : Nat) : Bool := decide (48 ≤ c ∧ c ≤ 57)

/-- ext_frame in slc_bump: 1 iff the first buffer byte is an ASCII decimal
digit (the multiplex address). -/
def addrPresent (rb : List Nat) : Bool := isDigitB (rb.getD 0 0)

def extOff (rb : List Nat) : Nat := if addrPresent rb then 1 else 0

/-- cmd in slc_bump: the type character. -/
def cmdOf (rb : List Nat) : Nat := rb.getD (extOff rb) 0

def typeOK (c : Nat) : Bool := c == 116 || c == 84 || c == 114 || c == 82

/-- dlc_pos in slc_bump: 4 + ext_frame for tiny type characters,
9 + ext_frame otherwise. -/
def dlcPosOf (rb : List Nat) : Nat :=
  (if cmdOf rb &&& 0x20 ≠ 0 then 4 else 9) + extOff rb

/-- The DLC digit test of slc_bump: rbuff[dlc_pos] >= '0' && rbuff[dlc_pos] < '9'. -/
def dlc_check (c : Nat) : Bool := decide (48 ≤ c ∧ c < 57)

/-- The id field region: the bytes strictly between the type character and
the DLC position. -/
def idSpan (rb : List Nat) : List Nat :=
  (List.range (dlcPosOf rb - (1 + extOff rb))).map (fun i => rb.getD (1 + extOff rb + i) 0)

/-- The C string handed to strict_strtoul: the id span truncated at its
first NUL byte (slc_bump writes a NUL at dlc_pos before parsing). -/
def idStr (rb : List Nat) : List Nat := (idSpan rb).takeWhile (fun c => c != 0)

/-- dev_idx in slc_bump: the parsed address digit when present, else 0. -/
def destOf (rb : List Nat) : Nat :=
  if addrPresent rb then rb.getD 0 0 - 48 else 0

/-- slc_bump: decode one completed receive buffer (terminator stripped) into
a CAN frame and the destination endpoint index.  dev_present tells which
endpoint slots of the channel hold a live net device; the frame is delivered
only when the addressed slot is live. -/
def slc_bump (dev_present : Nat → Bool) (rb : List Nat) : Option (CanFrame × Nat) :=
  if !typeOK (cmdOf rb) then none
  else if !dlc_check (rb.getD (dlcPosOf rb) 0) then none
  else
    let can_dlc := rb.getD (dlcPosOf rb) 0 - 48
    match parseHexStr (idStr rb) with
    | none => none
    | some ultmp =>
      let id1 := if cmdOf rb &&& 0x20 = 0 then ultmp ||| CAN_EFF_FLAG else ultmp
      let id2 := if cmdOf rb ||| 0x20 = 114 then id1 ||| CAN_RTR_FLAG else id1
      match decodeData rb (dlcPosOf rb + 1) can_dlc with
      | none => none
      | some ds =>
        if dev_present (destOf rb) then
          some (⟨id2, can_dlc, ds ++ List.replicate (8 - can_dlc) 0⟩, destOf rb)
        else none

/-- Per-endpoint rx statistics update performed at the end of slc_bump:
on successful delivery to endpoint d, rx_packets and rx_bytes of d grow by
1 and can_dlc; otherwise nothing changes. -/
def slc_bump_rx (dev_present : Nat → Bool) (stats : Nat → Nat × Nat)
    (rb : List Nat) : Nat → Nat × Nat :=
  match slc_bump dev_present rb with
  | none => stats
  | some (fr, d) => fun i =>
      if i = d then ((stats i).1 + 1, (stats i).2 + fr.can_dlc) else stats i

/-- The buffer written by slc_encaps before the terminating CR. -/
def encBody (mux : Nat) (cf : CanFrame) (dev_idx : Nat) : List Nat :=
  let cmd : Nat := if cf.can_id &&& CAN_RTR_FLAG ≠ 0 then 82 else 84
  let head : List Nat :=
    if mux < 2 then
      if cf.can_id &&& CAN_EFF_FLAG ≠ 0 then
        cmd :: (hexPad 8 (cf.can_id &&& CAN_EFF_MASK) ++ decStr cf.can_dlc)
      else
        (cmd ||| 0x20) :: (hexPad 3 (cf.can_id &&& CAN_SFF_MASK) ++ decStr cf.can_dlc)
    else
      if cf.can_id &&& CAN_EFF_FLAG ≠ 0 then
        (dev_idx + 48) :: cmd :: (hexPad 8 (cf.can_id &&& CAN_EFF_MASK) ++ decStr cf.can_dlc)
      else
        (dev_idx + 48) :: (cmd ||| 0x20) :: (hexPad 3 (cf.can_id &&& CAN_SFF_MASK) ++ decStr cf.can_dlc)
  head ++ ((cf.data.take cf.can_dlc).map (hexPad 2)).flatten

/-- slc_encaps: ASCII encoding of one CAN frame for destination endpoint
dev_idx; a leading multiplex address digit is emitted iff muxnetdevs >= 2,
and the buffer ends with CR. -/
def slc_encaps (mux : Nat) (cf : CanFrame) (dev_idx : Nat) : List Nat :=
  encBody mux cf dev_idx ++ [13]

/-- The raw can_id word built from components: extended flag, RTR flag and
the identifier bits. -/
def mkCanId (ext rtr : Bool) (base : Nat) : Nat :=
  (if ext then CAN_EFF_FLAG else 0) ||| ((if rtr then CAN_RTR_FLAG else 0) ||| base)

/-- Receive-side state of one slcan_channel: received chars counter, the
accumulated buffer contents, the SLF_ERROR flag, and per-endpoint
rx_over_errors and rx_errors counters. -/
structure RxState where
  rcount : Nat
  rbuff : List Nat
  err : Bool
  rx_over : Nat → Nat
  rx_errors : Nat → Nat

def rxInit : RxState := ⟨0, [], false, fun _ => 0, fun _ => 0⟩

/-- slcan_unesc: process one input byte.  CR or BEL ends the pdu: the frame
is decoded iff the error flag was clear and more than 4 bytes accumulated,
and in every case the counter is reset and the flag cleared.  Other bytes
accumulate while below capacity; at capacity the overflow counter of
endpoint 0 is bumped and the error flag set, discarding bytes until the
next terminator. -/
def slcan_unesc (dev_present : Nat → Bool) (st : RxState) (s : Nat) :
    RxState × Option (CanFrame × Nat) :=
  if s = 13 ∨ s = 7 then
    let res := if st.err = false ∧ st.rcount > 4 then slc_bump dev_present st.rbuff else none
    ({ st with rcount := 0, rbuff := [], err := false }, res)
  else
    if st.err = false then
      if st.rcount < SLC_MTU then
        ({ st with rbuff := st.rbuff ++ [s], rcount := st.rcount + 1 }, none)
      else
        ({ st with err := true,
                   rx_over := fun i => if i = 0 then st.rx_over i + 1 else st.rx_over i }, none)
    else (st, none)

/-- Feed a byte sequence through slcan_unesc, collecting delivered frames. -/
def runRx (dev_present : Nat → Bool) (st : RxState) : List Nat → RxState × List (CanFrame × Nat)
  | [] => (st, [])
  | b :: bs =>
    let p := slcan_unesc dev_present st b
    let q := runRx dev_present p.1 bs
    (q.1, p.2.toList ++ q.2)

/-- The TTY-reported per-byte error branch of slcan_receive_buf: set
SLF_ERROR and, if it was clear, bump rx_errors of endpoint 0. -/
def rxFlagByte (st : RxState) : RxState :=
  if st.err then st
  else { st with err := true,
                 rx_errors := fun i => if i = 0 then st.rx_errors i + 1 else st.rx_errors i }

def runRxF (dev_present : Nat → Bool) (st : RxState) :
    List (Nat × Bool) → RxState × List (CanFrame × Nat)
  | [] => (st, [])
  | (c, f) :: rest =>
    if f then runRxF dev_present (rxFlagByte st) rest
    else
      let p := slcan_unesc dev_present st c
      let q := runRxF dev_present p.1 rest
      (q.1, p.2.toList ++ q.2)

/-- slcan_receive_buf: a delivered block of bytes (each carrying the
transport's per-byte error flag) is processed only when the net device in
slot 0 is running; otherwise the whole block is dropped with no state
change. -/
def slcan_receive_buf (running : Nat → Bool) (dev_present : Nat → Bool)
    (st : RxState) (bytes : List (Nat × Bool)) : RxState × List (CanFrame × Nat) :=
  if running 0 = false then (st, [])
  else runRxF dev_present st bytes

/-- Transmit-side state of one slcan_channel with its endpoints: per-endpoint
pending byte counts (xleft), tx_packets counters, queue-running flags,
interface-up flags, and the shared TTY_DO_WRITE_WAKEUP bit. -/
structure TxSt where
  xleft : List Nat
  txp : List Nat
  qrun : List Bool
  up : List Bool
  wakebit : Bool
deriving Repr, DecidableEq

/-- slc_xmit followed by slc_encaps for endpoint e: when the interface is
up, its queue is stopped, the wakeup bit set, the frame written to the
transport which accepts acc of its len bytes, and the unsent suffix length
recorded. -/
def tx_send (st : TxSt) (e len acc : Nat) : TxSt :=
  if st.up.getD e false = false then st
  else { st with qrun := st.qrun.set e false,
                 wakebit := true,
                 xleft := st.xleft.set e (len - min acc len) }

/-- slcan_write_wakeup: fired by the transport only while the wakeup bit is
set.  Iterates the endpoint slots in order: a running endpoint with no
pending bytes gets tx_packets++, the shared wakeup bit cleared and its queue
resumed; a running endpoint with pending bytes writes its suffix, of which
the transport accepts acc i bytes. -/
def wakeup_step (acc : List Nat) (st : TxSt) : TxSt :=
  if st.wakebit = false then st
  else
    (List.range st.up.length).foldl (fun s i =>
      if s.up.getD i false = false then s
      else if s.xleft.getD i 0 = 0 then
        { s with txp := s.txp.set i (s.txp.getD i 0 + 1),
                 wakebit := false,
                 qrun := s.qrun.set i true }
      else
        { s with xleft := s.xleft.set i (s.xleft.getD i 0 - min (acc.getD i 0) (s.xleft.getD i 0)) }) st

inductive TxEv where
  | send (e len acc : Nat)
  | wake (acc : List Nat)
deriving Repr, DecidableEq

def tx_run (st : TxSt) : List TxEv → TxSt
  | [] => st
  | TxEv.send e len acc :: evs => tx_run (tx_send st e len acc) evs
  | TxEv.wake acc :: evs => tx_run (wakeup_step acc st) evs

/-! ### Arithmetic and bit-level helpers -/

theorem lor_high_low : ∀ (k hi lo : Nat), lo < 2 ^ k → (hi * 2 ^ k) ||| lo = hi * 2 ^ k + lo := by
  intro k
  induction k with
  | zero =>
    intro hi lo h
    have hlo : lo = 0 := by omega
    subst hlo
    simp
  | succ k ih =>
    intro hi lo h
    have htoNat : (decide (lo % 2 = 1)).toNat = lo % 2 := by
      by_cases hp : lo % 2 = 1 <;> simp [hp] <;> omega
    have hb : Nat.bit (decide (lo % 2 = 1)) (lo / 2) = lo := by
      rw [Nat.bit_val, htoNat]
      omega
    have hmul : hi * 2 ^ (k + 1) = 2 * (hi * 2 ^ k) := by
      rw [pow_succ]
      ring
    have hh : Nat.bit false (hi * 2 ^ k) = hi * 2 ^ (k + 1) := by
      rw [Nat.bit_val, hmul]
      simp
    have hlt : lo / 2 < 2 ^ k := by
      have h2 : (2 : Nat) ^ (k + 1) = 2 ^ k * 2 := pow_succ 2 k
      omega
    calc hi * 2 ^ (k + 1) ||| lo
        = Nat.bit false (hi * 2 ^ k) ||| Nat.bit (decide (lo % 2 = 1)) (lo / 2) := by
          rw [hh, hb]
      _ = Nat.bit (false || decide (lo % 2 = 1)) ((hi * 2 ^ k) ||| (lo / 2)) := by
          rw [Nat.lor_bit]
      _ = Nat.bit (decide (lo % 2 = 1)) (hi * 2 ^ k + lo / 2) := by
          rw [ih hi (lo / 2) hlt, Bool.false_or]
      _ = hi * 2 ^ (k + 1) + lo := by
          rw [Nat.bit_val, htoNat, hmul]
          omega

theorem and_high_zero {base n k : Nat} (h : base < 2 ^ n) (hnk : n ≤ k) : base &&& 2 ^ k = 0 := by
  rw [Nat.and_two_pow]
  have hlt : base < 2 ^ k := lt_of_lt_of_le h (Nat.pow_le_pow_right (by norm_num) hnk)
  rw [Nat.testBit_eq_false_of_lt hlt]
  simp

theorem mkCanId_and_rtr (ext rtr : Bool) (base : Nat) (h : base < 2 ^ 30) :
    mkCanId ext rtr base &&& CAN_RTR_FLAG = if rtr then CAN_RTR_FLAG else 0 := by
  have hb : base &&& CAN_RTR_FLAG = 0 := by
    have : (CAN_RTR_FLAG : Nat) = 2 ^ 30 := by norm_num [CAN_RTR_FLAG]
    rw [this]
    exact and_high_zero h (le_refl 30)
  cases ext <;> cases rtr <;>
    simp [mkCanId, Nat.and_distrib_right, hb] <;> decide

theorem mkCanId_and_eff (ext rtr : Bool) (base : Nat) (h : base < 2 ^ 30) :
    mkCanId ext rtr base &&& CAN_EFF_FLAG = if ext then CAN_EFF_FLAG else 0 := by
  have hb : base &&& CAN_EFF_FLAG = 0 := by
    have : (CAN_EFF_FLAG : Nat) = 2 ^ 31 := by norm_num [CAN_EFF_FLAG]
    rw [this]
    exact and_high_zero h (by norm_num)
  cases ext <;> cases rtr <;>
    simp [mkCanId, Nat.and_distrib_right, hb] <;> decide

theorem mkCanId_and_effmask (ext rtr : Bool) (base : Nat) (h : base < 2 ^ 29) :
    mkCanId ext rtr base &&& CAN_EFF_MASK = base := by
  have hm : (CAN_EFF_MASK : Nat) = 2 ^ 29 - 1 := by norm_num [CAN_EFF_MASK]
  have hb : base &&& CAN_EFF_MASK = base := by
    rw [hm]
    exact Nat.and_pow_two_sub_one_of_lt_two_pow h
  have hc1 : CAN_EFF_FLAG &&& CAN_EFF_MASK = 0 := by decide
  have hc2 : CAN_RTR_FLAG &&& CAN_EFF_MASK = 0 := by decide
  cases ext <;> cases rtr <;>
    simp [mkCanId, Nat.and_distrib_right, hb, hc1, hc2]

theorem mkCanId_and_sffmask (ext rtr : Bool) (base : Nat) (h : base < 2 ^ 11) :
    mkCanId ext rtr base &&& CAN_SFF_MASK = base := by
  have hm : (CAN_SFF_MASK : Nat) = 2 ^ 11 - 1 := by norm_num [CAN_SFF_MASK]
  have hb : base &&& CAN_SFF_MASK = base := by
    rw [hm]
    exact Nat.and_pow_two_sub_one_of_lt_two_pow h
  have hc1 : CAN_EFF_FLAG &&& CAN_SFF_MASK = 0 := by decide
  have hc2 : CAN_RTR_FLAG &&& CAN_SFF_MASK = 0 := by decide
  cases ext <;> cases rtr <;>
    simp [mkCanId, Nat.and_distrib_right, hb, hc1, hc2]

/-! ### Hexadecimal rendering and parsing -/

theorem hexVal_hexDigitChar : ∀ n < 16, hexVal (hexDigitChar n) = some n := by decide

theorem hexDigitChar_bounds : ∀ n < 16, 48 ≤ hexDigitChar n ∧ hexDigitChar n ≤ 70 := by decide

set_option maxRecDepth 4096 in
theorem byte_hex_split : ∀ b < 256, (((b >>> 4) % 16) <<< 4) ||| b % 16 = b := by decide

theorem hexPad_length (w v : Nat) : (hexPad w v).length = w := by
  induction w generalizing v with
  | zero => rfl
  | succ w ih => simp [hexPad, ih]

theorem hexPad_mem {w v c : Nat} (h : c ∈ hexPad w v) : ∃ m, m < 16 ∧ c = hexDigitChar m := by
  induction w generalizing v with
  | zero => simp [hexPad] at h
  | succ w ih =>
    simp only [hexPad, List.mem_cons] at h
    rcases h with h | h
    · exact ⟨(v >>> (4 * w)) % 16, Nat.mod_lt _ (by norm_num), h⟩
    · exact ih h

theorem hexPad_mem_bounds {w v c : Nat} (h : c ∈ hexPad w v) : 48 ≤ c ∧ c ≤ 70 := by
  obtain ⟨m, hm, rfl⟩ := hexPad_mem h
  exact hexDigitChar_bounds m hm

theorem hexPad_mem_hex {w v c : Nat} (h : c ∈ hexPad w v) : isHexChar c = true := by
  obtain ⟨m, hm, rfl⟩ := hexPad_mem h
  simp [isHexChar, hexVal_hexDigitChar m hm]


def hexAccum (a : Nat) (l : List Nat) : Nat :=
  l.foldl (fun acc c => acc * 16 + (hexVal c).getD 0) a

theorem parseStep_none (c : Nat) : parseStep none c = none := by
  cases h : hexVal c <;> simp [parseStep, h]

theorem foldl_parseStep_none (l : List Nat) : l.foldl parseStep none = none := by
  induction l with
  | nil => rfl
  | cons c l ih => simp [List.foldl_cons, parseStep_none, ih]

theorem foldl_parseStep_hex (l : List Nat) :
    ∀ a, (∀ c ∈ l, isHexChar c = true) → l.foldl parseStep (some a) = some (hexAccum a l) := by
  induction l with
  | nil => intro a _; rfl
  | cons c l ih =>
    intro a h
    have hc : isHexChar c = true := h c (List.mem_cons_self c l)
    obtain ⟨v, hv⟩ : ∃ v, hexVal c = some v := by
      cases hx : hexVal c
      · rw [isHexChar, hx] at hc; simp at hc
      · exact ⟨_, rfl⟩
    have hrest : ∀ x ∈ l, isHexChar x = true := fun x hx => h x (List.mem_cons_of_mem c hx)
    simp only [List.foldl_cons]
    have hstep : parseStep (some a) c = some (a * 16 + v) := by simp [parseStep, hv]
    rw [hstep, ih (a * 16 + v) hrest]
    simp [hexAccum, hv]

theorem hexAccum_hexPad (w : Nat) : ∀ (v a : Nat),
    hexAccum a (hexPad w v) = a * 16 ^ w + v % 16 ^ w := by
  induction w with
  | zero => intro v a; simp [hexAccum, hexPad, Nat.mod_one]
  | succ w ih =>
    intro v a
    have hsh : (v >>> (4 * w)) % 16 = v / 16 ^ w % 16 := by
      rw [Nat.shiftRight_eq_div_pow]
      congr 1
      rw [pow_mul]
      norm_num
    have hd : (hexVal (hexDigitChar ((v >>> (4 * w)) % 16))).getD 0 = (v >>> (4 * w)) % 16 := by
      rw [hexVal_hexDigitChar _ (Nat.mod_lt _ (by norm_num))]
      rfl
    have : hexAccum a (hexPad (w + 1) v) =
        hexAccum (a * 16 + (v >>> (4 * w)) % 16) (hexPad w v) := by
      simp [hexAccum, hexPad, List.foldl_cons, hd]
    rw [this, ih v (a * 16 + (v >>> (4 * w)) % 16), hsh]
    have hm : v % 16 ^ (w + 1) = v % 16 ^ w + 16 ^ w * (v / 16 ^ w % 16) := by
      rw [pow_succ, Nat.mod_mul]
    rw [hm, pow_succ]
    ring

theorem parseHexStr_hexPad {w v : Nat} (hw : 0 < w) (hv : v < 16 ^ w) :
    parseHexStr (hexPad w v) = some v := by
  have hne : hexPad w v ≠ [] := by
    intro h
    have := hexPad_length w v
    rw [h] at this
    simp at this
    omega
  rw [parseHexStr, if_neg hne,
      foldl_parseStep_hex _ 0 (fun c hc => hexPad_mem_hex hc), hexAccum_hexPad]
  simp [Nat.mod_eq_of_lt hv]

/-! ### List positional helpers -/

theorem range_map_getD (l : List Nat) :
    (List.range l.length).map (fun i => l.getD i 0) = l := by
  induction l with
  | nil => rfl
  | cons a l ih =>
    have h1 : ((fun i => (a :: l).getD i 0) ∘ Nat.succ) = (fun i => l.getD i 0) := by
      funext i
      simp [List.getD_cons_succ]
    rw [List.length_cons, List.range_succ_eq_map, List.map_cons, List.map_map, h1, ih]
    simp [List.getD_cons_zero]

theorem takeWhile_all_ne_zero {l : List Nat} (h : ∀ c ∈ l, c ≠ 0) :
    l.takeWhile (fun c => c != 0) = l := by
  induction l with
  | nil => rfl
  | cons a l ih =>
    have ha : (a != 0) = true := by
      have := h a (List.mem_cons_self a l)
      simpa using this
    rw [List.takeWhile_cons, ha]
    simp [ih (fun c hc => h c (List.mem_cons_of_mem a hc))]

theorem decStr_lt_ten {n : Nat} (h : n < 10) : decStr n = [48 + n] := by
  simp [decStr, decStrAux, h]

theorem decodeData_encoded : ∀ (bytes pre : List Nat), (∀ b ∈ bytes, b < 256) →
    decodeData (pre ++ (bytes.map (hexPad 2)).flatten) pre.length bytes.length = some bytes := by
  intro bytes
  induction bytes with
  | nil => intro pre _; rfl
  | cons b bs ih =>
    intro pre h
    have hb : b < 256 := h b (List.mem_cons_self b bs)
    have hbs : ∀ x ∈ bs, x < 256 := fun x hx => h x (List.mem_cons_of_mem b hx)
    have hpad2 : hexPad 2 b = [hexDigitChar ((b >>> 4) % 16), hexDigitChar (b % 16)] := by
      show hexDigitChar ((b >>> (4 * 1)) % 16) :: hexDigitChar ((b >>> (4 * 0)) % 16) :: [] = _
      norm_num
    have hflat : ((b :: bs).map (hexPad 2)).flatten
        = hexDigitChar ((b >>> 4) % 16) :: hexDigitChar (b % 16) :: (bs.map (hexPad 2)).flatten := by
      simp [hpad2]
    rw [hflat]
    have g0 : (pre ++ (hexDigitChar ((b >>> 4) % 16) :: hexDigitChar (b % 16) ::
        (bs.map (hexPad 2)).flatten)).getD pre.length 0 = hexDigitChar ((b >>> 4) % 16) := by
      rw [List.getD_append_right _ _ _ _ (le_refl _)]
      simp
    have g1 : (pre ++ (hexDigitChar ((b >>> 4) % 16) :: hexDigitChar (b % 16) ::
        (bs.map (hexPad 2)).flatten)).getD (pre.length + 1) 0 = hexDigitChar (b % 16) := by
      rw [List.getD_append_right _ _ _ _ (by omega)]
      have e : pre.length + 1 - pre.length = 1 := by omega
      rw [e]
      simp
    have hrec : decodeData (pre ++ (hexDigitChar ((b >>> 4) % 16) :: hexDigitChar (b % 16) ::
        (bs.map (hexPad 2)).flatten)) (pre.length + 2) bs.length = some bs := by
      have e1 : pre ++ (hexDigitChar ((b >>> 4) % 16) :: hexDigitChar (b % 16) ::
          (bs.map (hexPad 2)).flatten) = (pre ++ hexPad 2 b) ++ (bs.map (hexPad 2)).flatten := by
        rw [hpad2]
        simp
      have e2 : pre.length + 2 = (pre ++ hexPad 2 b).length := by
        rw [List.length_append, hexPad_length]
      rw [e1, e2]
      exact ih (pre ++ hexPad 2 b) hbs
    show decodeData _ pre.length (bs.length + 1) = _
    rw [decodeData, g0, g1,
        hexVal_hexDigitChar _ (Nat.mod_lt _ (by norm_num)),
        hexVal_hexDigitChar _ (Nat.mod_lt _ (by norm_num)), hrec]
    simp [byte_hex_split b hb]

theorem decodeData_length : ∀ (n : Nat) (rb : List Nat) (pos : Nat) (ds : List Nat),
    decodeData rb pos n = some ds → ds.length = n := by
  intro n
  induction n with
  | zero =>
    intro rb pos ds h
    simp [decodeData] at h
    simp [h]
  | succ n ih =>
    intro rb pos ds h
    rw [decodeData] at h
    cases h1 : hexVal (rb.getD pos 0) with
    | none => rw [h1] at h; simp at h
    | some hi =>
      cases h2 : hexVal (rb.getD (pos + 1) 0) with
      | none => rw [h1, h2] at h; simp at h
      | some lo =>
        rw [h1, h2] at h
        cases h3 : decodeData rb (pos + 2) n with
        | none => rw [h3] at h; simp at h
        | some rest =>
          rw [h3] at h
          simp at h
          rw [← h]
          simp [ih rb (pos + 2) rest h3]

theorem decodeData_none_of_bad : ∀ (n : Nat) (rb : List Nat) (pos : Nat),
    (∃ j, j < 2 * n ∧ isHexChar (rb.getD (pos + j) 0) = false) →
    decodeData rb pos n = none := by
  intro n
  induction n with
  | zero =>
    intro rb pos h
    obtain ⟨j, hj, _⟩ := h
    omega
  | succ n ih =>
    intro rb pos h
    obtain ⟨j, hj, hbad⟩ := h
    rw [decodeData]
    cases h1 : hexVal (rb.getD pos 0) with
    | none => rfl
    | some hi =>
      cases h2 : hexVal (rb.getD (pos + 1) 0) with
      | none => rfl
      | some lo =>
        have hj2 : 2 ≤ j := by
          by_contra hlt
          push_neg at hlt
          interval_cases j
          · simp only [Nat.add_zero, isHexChar, h1] at hbad
            simp at hbad
          · simp only [isHexChar, h2] at hbad
            simp at hbad
        have hrec : decodeData rb (pos + 2) n = none := by
          apply ih
          refine ⟨j - 2, by omega, ?_⟩
          have e : pos + 2 + (j - 2) = pos + j := by omega
          rw [e]
          exact hbad
        rw [hrec]

/-- Decoding a buffer of the exact wire shape
[addr] type idhex dlcdigit payloadhex recovers the components.  The address
prefix A is empty (destination 0) or a single digit character. -/
theorem bump_layout (dp : Nat → Bool) (A : List Nat) (dest c w v dlc : Nat) (bytes : List Nat)
    (hA : (A = [] ∧ dest = 0) ∨ (A = [dest + 48] ∧ dest ≤ 9))
    (hc : c = 116 ∨ c = 114 ∨ c = 84 ∨ c = 82)
    (hw : w = if c &&& 0x20 ≠ 0 then 3 else 8)
    (hv : v < 16 ^ w) (hdlc : dlc ≤ 8) (hbytes : ∀ b ∈ bytes, b < 256)
    (hblen : bytes.length = dlc) (hdp : dp dest = true) :
    slc_bump dp (A ++ c :: (hexPad w v ++ [48 + dlc] ++ (bytes.map (hexPad 2)).flatten))
      = some (⟨(if c ||| 0x20 = 114
                then (if c &&& 0x20 = 0 then v ||| CAN_EFF_FLAG else v) ||| CAN_RTR_FLAG
                else (if c &&& 0x20 = 0 then v ||| CAN_EFF_FLAG else v)), dlc,
               bytes ++ List.replicate (8 - dlc) 0⟩, dest) := by
  have hcd : isDigitB c = false := by
    rcases hc with rfl | rfl | rfl | rfl <;> decide
  have htype : typeOK c = true := by
    rcases hc with rfl | rfl | rfl | rfl <;> decide
  have hAlen : A.length = (if A = [] then 0 else 1) := by
    rcases hA with ⟨rfl, _⟩ | ⟨rfl, _⟩ <;> simp
  set pay : List Nat := (bytes.map (hexPad 2)).flatten with hpay
  set rb : List Nat := A ++ c :: (hexPad w v ++ [48 + dlc] ++ pay) with hrb
  have hget0 : rb.getD 0 0 = (if A = [] then c else dest + 48) := by
    rcases hA with ⟨rfl, _⟩ | ⟨rfl, _⟩ <;> simp [hrb]
  have haddr : addrPresent rb = (if A = [] then false else true) := by
    rcases hA with ⟨rfl, _⟩ | ⟨rfl, hd9⟩
    · rw [addrPresent, hget0, if_pos rfl, if_pos rfl]
      exact hcd
    · have hne : ([dest + 48] : List Nat) ≠ [] := by simp
      rw [addrPresent, hget0, if_neg hne, if_neg hne]
      simp [isDigitB]
      omega
  have he : extOff rb = A.length := by
    rw [extOff, haddr]
    rcases hA with ⟨rfl, _⟩ | ⟨rfl, _⟩ <;> simp
  have hcmd : cmdOf rb = c := by
    rw [cmdOf, he]
    rcases hA with ⟨rfl, _⟩ | ⟨rfl, _⟩ <;> simp [hrb]
  have hpos : dlcPosOf rb = 1 + w + A.length := by
    rw [dlcPosOf, hcmd, he]
    by_cases h32 : c &&& 0x20 ≠ 0
    · rw [if_pos h32]
      rw [if_pos h32] at hw
      omega
    · rw [if_neg h32]
      rw [if_neg h32] at hw
      omega
  have htail : ∀ k, rb.getD (A.length + 1 + k) 0 = (hexPad w v ++ [48 + dlc] ++ pay).getD k 0 := by
    intro k
    rw [hrb]
    rw [List.getD_append_right _ _ _ _ (by omega)]
    have e1 : A.length + 1 + k - A.length = 1 + k := by omega
    rw [e1]
    have e2 : 1 + k = k + 1 := by omega
    rw [e2, List.getD_cons_succ]
  have hdbyte : rb.getD (dlcPosOf rb) 0 = 48 + dlc := by
    have e1 : dlcPosOf rb = A.length + 1 + w := by omega
    rw [e1, htail w]
    rw [List.getD_append _ _ _ _ (by simp [hexPad_length])]
    rw [List.getD_append_right _ _ _ _ (by rw [hexPad_length])]
    have e2 : w - (hexPad w v).length = 0 := by
      rw [hexPad_length]
      omega
    rw [e2]
    rfl
  have hspan : idSpan rb = hexPad w v := by
    rw [idSpan, hpos, he]
    have e1 : 1 + w + A.length - (1 + A.length) = w := by omega
    rw [e1]
    calc (List.range w).map (fun i => rb.getD (1 + A.length + i) 0)
        = (List.range w).map (fun i => (hexPad w v).getD i 0) := by
          apply List.map_congr_left
          intro i hi
          rw [List.mem_range] at hi
          have e3 : 1 + A.length + i = A.length + 1 + i := by omega
          rw [e3, htail i]
          rw [List.getD_append _ _ _ _ (by simp [hexPad_length]; omega)]
          rw [List.getD_append _ _ _ _ (by rw [hexPad_length]; omega)]
      _ = hexPad w v := by
          have h4 := range_map_getD (hexPad w v)
          rw [hexPad_length] at h4
          exact h4
  have hstr : idStr rb = hexPad w v := by
    rw [idStr, hspan]
    refine takeWhile_all_ne_zero (fun x hx => ?_)
    have h5 := hexPad_mem_bounds hx
    omega
  have hwpos : 0 < w := by
    by_cases h32 : c &&& 0x20 ≠ 0
    · rw [if_pos h32] at hw; omega
    · rw [if_neg h32] at hw; omega
  have hparse : parseHexStr (idStr rb) = some v := by
    rw [hstr]
    exact parseHexStr_hexPad hwpos hv
  have hdata : decodeData rb (dlcPosOf rb + 1) dlc = some bytes := by
    rw [hpos]
    have e2 : 1 + w + A.length + 1 = (A ++ c :: (hexPad w v ++ [48 + dlc])).length := by
      simp [hexPad_length]
      omega
    have e1 : rb = (A ++ c :: (hexPad w v ++ [48 + dlc])) ++ pay := by
      rw [hrb]
      simp
    rw [e2, e1, ← hblen]
    exact decodeData_encoded bytes _ hbytes
  have hdest : destOf rb = dest := by
    rw [destOf, haddr, hget0]
    rcases hA with ⟨rfl, rfl⟩ | ⟨rfl, _⟩
    · simp
    · simp
  have hck : dlc_check (48 + dlc) = true := by
    simp [dlc_check]
    omega
  have hsub : 48 + dlc - 48 = dlc := by omega
  simp only [slc_bump, hcmd, htype, hdbyte, hck, hsub, hparse, hdata, hdest, hdp,
             Bool.not_true, if_false, Bool.false_eq_true, reduceIte]

theorem pay_length (l : List Nat) : ((l.map (hexPad 2)).flatten).length = 2 * l.length := by
  induction l with
  | nil => rfl
  | cons b bs ih =>
    simp only [List.map_cons, List.flatten_cons, List.length_append, List.length_cons, ih,
               hexPad_length]
    omega

/-- The buffer slc_encaps builds for a frame whose can_id is assembled from
in-range components has the exact wire-grammar shape. -/
theorem encBody_shape (mux d base dlc : Nat) (ext rtr : Bool) (data : List Nat)
    (hbase : base < if ext then 2 ^ 29 else 2 ^ 11) (hdlc : dlc ≤ 8) :
    ∃ (A : List Nat) (c w : Nat),
      ((mux < 2 ∧ A = []) ∨ (2 ≤ mux ∧ A = [d + 48])) ∧
      (c = 116 ∨ c = 114 ∨ c = 84 ∨ c = 82) ∧
      (w = if c &&& 0x20 ≠ 0 then 3 else 8) ∧
      (w = if ext then 8 else 3) ∧
      ((c ||| 0x20 = 114) ↔ rtr = true) ∧ ((c &&& 0x20 = 0) ↔ ext = true) ∧
      encBody mux ⟨mkCanId ext rtr base, dlc, data⟩ d
        = A ++ c :: (hexPad w base ++ [48 + dlc] ++ ((data.take dlc).map (hexPad 2)).flatten) := by
  have hbase30 : base < 2 ^ 30 := by
    by_cases hx : ext = true
    · rw [hx] at hbase; simp at hbase; omega
    · have hx2 : ext = false := by simp at hx; exact hx
      rw [hx2] at hbase; simp at hbase; omega
  have hrtr := mkCanId_and_rtr ext rtr base hbase30
  have heff := mkCanId_and_eff ext rtr base hbase30
  have hdec : decStr dlc = [48 + dlc] := decStr_lt_ten (by omega)
  by_cases hm : mux < 2
  · cases ext with
    | false =>
      have hsff : mkCanId false rtr base &&& CAN_SFF_MASK = base := by
        apply mkCanId_and_sffmask
        simpa using hbase
      cases rtr with
      | false =>
        refine ⟨[], 116, 3, Or.inl ⟨hm, rfl⟩, by decide, by decide, by decide,
          by decide, by decide, ?_⟩
        simp only [encBody, hrtr, heff, hsff, hdec]
        rw [if_pos hm]
        simp [CAN_RTR_FLAG, CAN_EFF_FLAG]
      | true =>
        refine ⟨[], 114, 3, Or.inl ⟨hm, rfl⟩, by decide, by decide, by decide,
          by decide, by decide, ?_⟩
        simp only [encBody, hrtr, heff, hsff, hdec]
        rw [if_pos hm]
        simp [CAN_RTR_FLAG, CAN_EFF_FLAG]
    | true =>
      have heffm : mkCanId true rtr base &&& CAN_EFF_MASK = base := by
        apply mkCanId_and_effmask
        simpa using hbase
      cases rtr with
      | false =>
        refine ⟨[], 84, 8, Or.inl ⟨hm, rfl⟩, by decide, by decide, by decide,
          by decide, by decide, ?_⟩
        simp only [encBody, hrtr, heff, heffm, hdec]
        rw [if_pos hm]
        simp [CAN_RTR_FLAG, CAN_EFF_FLAG]
      | true =>
        refine ⟨[], 82, 8, Or.inl ⟨hm, rfl⟩, by decide, by decide, by decide,
          by decide, by decide, ?_⟩
        simp only [encBody, hrtr, heff, heffm, hdec]
        rw [if_pos hm]
        simp [CAN_RTR_FLAG, CAN_EFF_FLAG]
  · have hm2 : 2 ≤ mux := by omega
    have hmn : ¬ mux < 2 := hm
    cases ext with
    | false =>
      have hsff : mkCanId false rtr base &&& CAN_SFF_MASK = base := by
        apply mkCanId_and_sffmask
        simpa using hbase
      cases rtr with
      | false =>
        refine ⟨[d + 48], 116, 3, Or.inr ⟨hm2, rfl⟩, by decide, by decide, by decide,
          by decide, by decide, ?_⟩
        simp only [encBody, hrtr, heff, hsff, hdec]
        rw [if_neg hmn]
        simp [CAN_RTR_FLAG, CAN_EFF_FLAG]
      | true =>
        refine ⟨[d + 48], 114, 3, Or.inr ⟨hm2, rfl⟩, by decide, by decide, by decide,
          by decide, by decide, ?_⟩
        simp only [encBody, hrtr, heff, hsff, hdec]
        rw [if_neg hmn]
        simp [CAN_RTR_FLAG, CAN_EFF_FLAG]
    | true =>
      have heffm : mkCanId true rtr base &&& CAN_EFF_MASK = base := by
        apply mkCanId_and_effmask
        simpa using hbase
      cases rtr with
      | false =>
        refine ⟨[d + 48], 84, 8, Or.inr ⟨hm2, rfl⟩, by decide, by decide, by decide,
          by decide, by decide, ?_⟩
        simp only [encBody, hrtr, heff, heffm, hdec]
        rw [if_neg hmn]
        simp [CAN_RTR_FLAG, CAN_EFF_FLAG]
      | true =>
        refine ⟨[d + 48], 82, 8, Or.inr ⟨hm2, rfl⟩, by decide, by decide, by decide,
          by decide, by decide, ?_⟩
        simp only [encBody, hrtr, heff, heffm, hdec]
        rw [if_neg hmn]
        simp [CAN_RTR_FLAG, CAN_EFF_FLAG]

/-! ### Receive accumulation lemmas -/

theorem unesc_term (dp : Nat → Bool) (st : RxState) (s : Nat) (h : s = 13 ∨ s = 7) :
    slcan_unesc dp st s =
      ({ st with rcount := 0, rbuff := [], err := false },
       if st.err = false ∧ st.rcount > 4 then slc_bump dp st.rbuff else none) := by
  rcases h with rfl | rfl <;> simp [slcan_unesc]

theorem unesc_accum (dp : Nat → Bool) (st : RxState) (s : Nat)
    (hs : s ≠ 13 ∧ s ≠ 7) (herr : st.err = false) (hcap : st.rcount < SLC_MTU) :
    slcan_unesc dp st s =
      ({ st with rbuff := st.rbuff ++ [s], rcount := st.rcount + 1 }, none) := by
  rw [slcan_unesc, if_neg (by tauto), if_pos herr, if_pos hcap]

theorem unesc_overflow (dp : Nat → Bool) (st : RxState) (s : Nat)
    (hs : s ≠ 13 ∧ s ≠ 7) (herr : st.err = false) (hcap : ¬ st.rcount < SLC_MTU) :
    slcan_unesc dp st s =
      ({ st with err := true,
                 rx_over := fun i => if i = 0 then st.rx_over i + 1 else st.rx_over i }, none) := by
  rw [slcan_unesc, if_neg (by tauto), if_pos herr, if_neg hcap]

theorem unesc_err (dp : Nat → Bool) (st : RxState) (s : Nat)
    (hs : s ≠ 13 ∧ s ≠ 7) (herr : st.err = true) :
    slcan_unesc dp st s = (st, none) := by
  rw [slcan_unesc, if_neg (by tauto), if_neg (by simp [herr])]

theorem runRx_accum (dp : Nat → Bool) : ∀ (bs : List Nat) (st : RxState),
    st.err = false → (∀ b ∈ bs, b ≠ 13 ∧ b ≠ 7) → st.rcount + bs.length ≤ SLC_MTU →
    runRx dp st bs = ({ st with rbuff := st.rbuff ++ bs, rcount := st.rcount + bs.length }, []) := by
  intro bs
  induction bs with
  | nil =>
    intro st herr _ _
    simp [runRx]
  | cons b bs ih =>
    intro st herr hmem hcap
    have hb : b ≠ 13 ∧ b ≠ 7 := hmem b (List.mem_cons_self b bs)
    have hcap1 : st.rcount < SLC_MTU := by
      have := hcap
      simp [List.length_cons] at this
      omega
    rw [runRx]
    rw [unesc_accum dp st b hb herr hcap1]
    rw [ih _ (by simp [herr]) (fun x hx => hmem x (List.mem_cons_of_mem b hx))
          (by simp [List.length_cons] at hcap ⊢; omega)]
    simp [List.append_assoc]
    omega

theorem runRx_discard (dp : Nat → Bool) : ∀ (bs : List Nat) (st : RxState),
    st.err = true → (∀ b ∈ bs, b ≠ 13 ∧ b ≠ 7) →
    runRx dp st bs = (st, []) := by
  intro bs
  induction bs with
  | nil => intro st _ _; rfl
  | cons b bs ih =>
    intro st herr hmem
    rw [runRx, unesc_err dp st b (hmem b (List.mem_cons_self b bs)) herr]
    rw [ih st herr (fun x hx => hmem x (List.mem_cons_of_mem b hx))]
    rfl

theorem runRx_append (dp : Nat → Bool) : ∀ (xs ys : List Nat) (st : RxState),
    runRx dp st (xs ++ ys) =
      ((runRx dp (runRx dp st xs).1 ys).1,
       (runRx dp st xs).2 ++ (runRx dp (runRx dp st xs).1 ys).2) := by
  intro xs
  induction xs with
  | nil => intro ys st; simp [runRx]
  | cons x xs ih =>
    intro ys st
    rw [List.cons_append, runRx, runRx, ih]
    simp [List.append_assoc]

theorem runRx_single_term (dp : Nat → Bool) (st : RxState) :
    runRx dp st [13] =
      ({ st with rcount := 0, rbuff := [], err := false },
       (if st.err = false ∧ st.rcount > 4 then slc_bump dp st.rbuff else none).toList) := by
  rw [runRx, unesc_term dp st 13 (Or.inl rfl)]
  rw [runRx]
  simp

theorem pay_mem {l : List Nat} (hl : ∀ b ∈ l, b < 256) :
    ∀ x ∈ (l.map (hexPad 2)).flatten, 48 ≤ x ∧ x ≤ 70 := by
  intro x hx
  rw [List.mem_flatten] at hx
  obtain ⟨sub, hsub, hxsub⟩ := hx
  rw [List.mem_map] at hsub
  obtain ⟨b, _, rfl⟩ := hsub
  exact hexPad_mem_bounds hxsub

/-- Feeding the encoding of a well-formed frame into a clean channel delivers
exactly that frame (dlc-prefix of the payload, zero tail) to endpoint d and
leaves the channel clean again. -/
theorem runRx_encaps_clean (dp : Nat → Bool) (st : RxState) (mux d base dlc : Nat)
    (ext rtr : Bool) (data : List Nat)
    (hbase : base < if ext then 2 ^ 29 else 2 ^ 11) (hdlc : dlc ≤ 8)
    (hlen : data.length = 8) (hdata : ∀ b ∈ data, b < 256)
    (hmux : mux ≤ 10) (hd : d < mux) (hdp : dp d = true)
    (h1 : st.err = false) (h2 : st.rcount = 0) (h3 : st.rbuff = []) :
    runRx dp st (slc_encaps mux ⟨mkCanId ext rtr base, dlc, data⟩ d)
      = (st, [(⟨mkCanId ext rtr base, dlc,
               data.take dlc ++ List.replicate (8 - dlc) 0⟩, d)]) := by
  obtain ⟨rc, rbf, er, ro, re⟩ := st
  simp only at h1 h2 h3
  subst h1
  subst h2
  subst h3
  obtain ⟨A, c, w, hA0, hc, hw, hwext, hrtri, heffi, hbody⟩ :=
    encBody_shape mux d base dlc ext rtr data hbase hdlc
  have hA : (A = [] ∧ d = 0) ∨ (A = [d + 48] ∧ d ≤ 9) := by
    rcases hA0 with ⟨hmlt, rfl⟩ | ⟨hmge, rfl⟩
    · exact Or.inl ⟨rfl, by omega⟩
    · exact Or.inr ⟨rfl, by omega⟩
  have hAlen1 : A.length ≤ 1 := by
    rcases hA with ⟨rfl, _⟩ | ⟨rfl, _⟩ <;> simp
  have hw38 : w = 3 ∨ w = 8 := by
    cases ext <;> simp at hwext <;> omega
  have hv : base < 16 ^ w := by
    rw [hwext]
    cases ext with
    | false =>
      simp at hbase ⊢
      calc base < 2 ^ 11 := hbase
        _ ≤ 16 ^ 3 := by norm_num
    | true =>
      simp at hbase ⊢
      calc base < 2 ^ 29 := hbase
        _ ≤ 16 ^ 8 := by norm_num
  have hbytes : ∀ b ∈ data.take dlc, b < 256 := fun b hb => hdata b (List.take_subset _ _ hb)
  have hblen : (data.take dlc).length = dlc := by
    rw [List.length_take, hlen]
    omega
  have hbump := bump_layout dp A d c w base dlc (data.take dlc) hA hc hw hv hdlc hbytes hblen hdp
  have hid : (if c ||| 0x20 = 114
      then (if c &&& 0x20 = 0 then base ||| CAN_EFF_FLAG else base) ||| CAN_RTR_FLAG
      else (if c &&& 0x20 = 0 then base ||| CAN_EFF_FLAG else base)) = mkCanId ext rtr base := by
    cases ext with
    | false =>
      have hne : ¬ (c &&& 0x20 = 0) := by
        rw [heffi]
        simp
      cases rtr with
      | false =>
        have hnr : ¬ (c ||| 0x20 = 114) := by
          rw [hrtri]
          simp
        rw [if_neg hnr, if_neg hne]
        simp [mkCanId]
      | true =>
        have hr : c ||| 0x20 = 114 := by
          rw [hrtri]
        rw [if_pos hr, if_neg hne]
        simp [mkCanId]
        exact Nat.lor_comm base CAN_RTR_FLAG
    | true =>
      have hee : c &&& 0x20 = 0 := by
        rw [heffi]
      cases rtr with
      | false =>
        have hnr : ¬ (c ||| 0x20 = 114) := by
          rw [hrtri]
          simp
        rw [if_neg hnr, if_pos hee]
        simp [mkCanId]
        exact Nat.lor_comm base CAN_EFF_FLAG
      | true =>
        have hr : c ||| 0x20 = 114 := by
          rw [hrtri]
        rw [if_pos hr, if_pos hee]
        simp [mkCanId]
        rw [Nat.lor_comm base CAN_EFF_FLAG, Nat.lor_assoc, Nat.lor_comm base CAN_RTR_FLAG]
  set body : List Nat :=
    A ++ c :: (hexPad w base ++ [48 + dlc] ++ ((data.take dlc).map (hexPad 2)).flatten)
    with hbodydef
  have hmemb : ∀ x ∈ body, x ≠ 13 ∧ x ≠ 7 := by
    intro x hx
    rw [hbodydef] at hx
    rcases List.mem_append.mp hx with hxa | hxc
    · rcases hA with ⟨rfl, _⟩ | ⟨rfl, hd9⟩
      · simp at hxa
      · simp at hxa
        omega
    · rcases List.mem_cons.mp hxc with rfl | hxr
      · rcases hc with rfl | rfl | rfl | rfl <;> omega
      · rcases List.mem_append.mp hxr with hxr2 | hxpay
        · rcases List.mem_append.mp hxr2 with hxhex | hxd
          · have := hexPad_mem_bounds hxhex
            omega
          · have hxe : x = 48 + dlc := by simpa using hxd
            omega
        · have := pay_mem hbytes x hxpay
          omega
  have hbl : body.length = A.length + 1 + (w + 1 + 2 * dlc) := by
    simp only [hbodydef, List.length_append, List.length_cons, List.length_nil,
               hexPad_length, pay_length, List.length_singleton, hblen]
    omega
  have hblep : body.length ≤ SLC_MTU := by
    rw [hbl, SLC_MTU]
    omega
  have hblgt : body.length > 4 := by
    rw [hbl]
    omega
  have hacc : runRx dp ⟨0, [], false, ro, re⟩ body = (⟨body.length, body, false, ro, re⟩, []) := by
    rw [runRx_accum dp body _ rfl hmemb (by simpa using hblep)]
    simp
  rw [slc_encaps, hbody]
  rw [runRx_append dp body [13] _]
  rw [hacc]
  rw [runRx_single_term]
  simp only [List.nil_append]
  rw [if_pos (And.intro trivial hblgt)]
  rw [hbump]
  rw [hid]
  rfl

theorem getD_replicate_lt {n i a d : Nat} (h : i < n) : (List.replicate n a).getD i d = a := by
  rw [List.getD_eq_getElem?_getD, List.getElem?_replicate, if_pos h]
  rfl

/-- Inversion of a successful slc_bump decode. -/
theorem slc_bump_inv {dp : Nat → Bool} {rb : List Nat} {fr : CanFrame} {d : Nat}
    (h : slc_bump dp rb = some (fr, d)) :
    typeOK (cmdOf rb) = true ∧ dlc_check (rb.getD (dlcPosOf rb) 0) = true ∧
    d = destOf rb ∧ dp (destOf rb) = true ∧
    fr.can_dlc = rb.getD (dlcPosOf rb) 0 - 48 ∧
    ∃ ds, decodeData rb (dlcPosOf rb + 1) (rb.getD (dlcPosOf rb) 0 - 48) = some ds ∧
      fr.data = ds ++ List.replicate (8 - (rb.getD (dlcPosOf rb) 0 - 48)) 0 := by
  simp only [slc_bump] at h
  split at h
  · simp at h
  · rename_i h1
    split at h
    · simp at h
    · rename_i h2
      cases h3 : parseHexStr (idStr rb) with
      | none =>
        simp only [h3] at h
        exact absurd h (by simp)
      | some v =>
        simp only [h3] at h
        cases h4 : decodeData rb (dlcPosOf rb + 1) (rb.getD (dlcPosOf rb) 0 - 48) with
        | none =>
          simp only [h4] at h
          exact absurd h (by simp)
        | some ds =>
          simp only [h4] at h
          split at h
          · rename_i h5
            simp only [Option.some.injEq, Prod.mk.injEq] at h
            obtain ⟨hfr, hd⟩ := h
            refine ⟨by simpa using h1, by simpa using h2, hd.symm, h5, ?_, ds, rfl, ?_⟩
            · rw [← hfr]
            · rw [← hfr]
          · simp at h

/-- C1: for every valid CanFrame (dlc at most 8, id within its declared
width, byte-valued payload) and destination d below mux_count, feeding the
encoder output into a clean receive channel delivers exactly that frame to
endpoint d: same can_id word (id, extended flag, RTR flag), same dlc, the
first dlc data bytes intact and the remaining payload bytes zero. -/
theorem C1_roundtrip (dp : Nat → Bool) (st : RxState) (mux d base dlc : Nat)
    (ext rtr : Bool) (data : List Nat)
    (hbase : base < if ext then 2 ^ 29 else 2 ^ 11) (hdlc : dlc ≤ 8)
    (hlen : data.length = 8) (hdata : ∀ b ∈ data, b < 256)
    (hmux : mux ≤ 10) (hd : d < mux) (hdp : dp d = true)
    (h1 : st.err = false) (h2 : st.rcount = 0) (h3 : st.rbuff = []) :
    runRx dp st (slc_encaps mux ⟨mkCanId ext rtr base, dlc, data⟩ d)
      = (st, [(⟨mkCanId ext rtr base, dlc,
               data.take dlc ++ List.replicate (8 - dlc) 0⟩, d)]) :=
  runRx_encaps_clean dp st mux d base dlc ext rtr data hbase hdlc hlen hdata hmux hd hdp h1 h2 h3

theorem C1_roundtrip_witness :
    ((0x123 : Nat) < if false then 2 ^ 29 else 2 ^ 11) ∧ (3 : Nat) ≤ 8 ∧
    ([0x11, 0x22, 0x33, 0, 0, 0, 0, 0] : List Nat).length = 8 ∧
    (∀ b ∈ ([0x11, 0x22, 0x33, 0, 0, 0, 0, 0] : List Nat), b < 256) ∧
    (2 : Nat) ≤ 10 ∧ (1 : Nat) < 2 ∧ (fun _ : Nat => true) 1 = true ∧
    rxInit.err = false ∧ rxInit.rcount = 0 ∧ rxInit.rbuff = [] ∧
    runRx (fun _ => true) rxInit
        (slc_encaps 2 ⟨mkCanId false false 0x123, 3, [0x11, 0x22, 0x33, 0, 0, 0, 0, 0]⟩ 1)
      = (rxInit, [(⟨mkCanId false false 0x123, 3,
          ([0x11, 0x22, 0x33, 0, 0, 0, 0, 0] : List Nat).take 3 ++ List.replicate (8 - 3) 0⟩, 1)]) :=
  ⟨by decide, by decide, by decide, by decide, by decide, by decide, rfl, rfl, rfl, rfl,
   C1_roundtrip (fun _ => true) rxInit 2 1 0x123 3 false false [0x11, 0x22, 0x33, 0, 0, 0, 0, 0]
     (by decide) (by decide) (by decide) (by decide) (by decide) (by decide) rfl rfl rfl rfl⟩

/-- C4: the decoder DLC digit test accepts exactly the characters 0..8:
the boundary 8 passes and 9 (and everything else outside 0..8) makes
slc_bump discard the buffer with no frame. -/
theorem C4_dlc_bound :
    (∀ c : Nat, dlc_check c = true ↔ 48 ≤ c ∧ c ≤ 56) ∧
    (∀ (dp : Nat → Bool) (rb : List Nat),
      dlc_check (rb.getD (dlcPosOf rb) 0) = false → slc_bump dp rb = none) := by
  constructor
  · intro c
    simp only [dlc_check, decide_eq_true_eq]
    omega
  · intro dp rb h
    have h2 : dlc_check (rb[dlcPosOf rb]?.getD 0) = false := by
      rw [← List.getD_eq_getElem?_getD]
      exact h
    simp [slc_bump, h, h2]

theorem C4_dlc_bound_witness :
    dlc_check 56 = true ∧
    dlc_check (([116, 49, 50, 51, 57] : List Nat).getD (dlcPosOf [116, 49, 50, 51, 57]) 0) = false ∧
    slc_bump (fun _ => true) [116, 49, 50, 51, 57] = none :=
  ⟨(C4_dlc_bound.1 56).mpr (by decide), by decide,
   C4_dlc_bound.2 (fun _ => true) [116, 49, 50, 51, 57] (by decide)⟩

/-- C5 counterexample: a buffer whose first byte is the digit 0 decodes
successfully even though 0 is not a type character, and this decode performs
no mux-count test at all (the embedded slc_bump takes no mux parameter, as
in the source); under the claim, with mux_count = 1 the first byte would be
taken as the type character and the buffer discarded. -/
theorem C5_mux_cex :
    typeOK 48 = false ∧
    slc_bump (fun _ => true) [48, 116, 49, 50, 51, 48]
      = some (⟨0x123, 0, List.replicate 8 0⟩, 0) := by decide

/-- C5 amended: the leading-digit test is unconditional.  Whenever decode
delivers a frame, the destination equals the leading digit value if byte 0
is a decimal digit (else 0), and the type character is read from position 1
in the first case and position 0 in the second - independent of mux_count. -/
theorem C5_addr_unconditional (dp : Nat → Bool) (rb : List Nat) (fr : CanFrame) (d : Nat)
    (h : slc_bump dp rb = some (fr, d)) :
    d = (if isDigitB (rb.getD 0 0) then rb.getD 0 0 - 48 else 0) ∧
    typeOK (rb.getD (if isDigitB (rb.getD 0 0) then 1 else 0) 0) = true := by
  obtain ⟨htype, _, hd, _, _, _⟩ := slc_bump_inv h
  constructor
  · rw [hd, destOf, addrPresent]
  · rw [cmdOf, extOff, addrPresent] at htype
    exact htype

theorem C5_addr_unconditional_witness :
    slc_bump (fun _ => true) [48, 116, 49, 50, 51, 48]
      = some (⟨0x123, 0, List.replicate 8 0⟩, 0) ∧
    ((0 : Nat) = (if isDigitB (([48, 116, 49, 50, 51, 48] : List Nat).getD 0 0)
        then ([48, 116, 49, 50, 51, 48] : List Nat).getD 0 0 - 48 else 0) ∧
     typeOK (([48, 116, 49, 50, 51, 48] : List Nat).getD
        (if isDigitB (([48, 116, 49, 50, 51, 48] : List Nat).getD 0 0) then 1 else 0) 0) = true) :=
  ⟨by decide,
   C5_addr_unconditional (fun _ => true) [48, 116, 49, 50, 51, 48]
     ⟨0x123, 0, List.replicate 8 0⟩ 0 (by decide)⟩

/-- C6: on every terminator byte (CR or BEL) the receive counter is reset to
0 and the error flag cleared, regardless of the decode outcome, and a decode
is attempted exactly when the error flag was clear and more than 4 bytes had
accumulated. -/
theorem C6_terminator_reset (dp : Nat → Bool) (st : RxState) (s : Nat)
    (hterm : s = 13 ∨ s = 7) :
    (slcan_unesc dp st s).1.rcount = 0 ∧ (slcan_unesc dp st s).1.err = false ∧
    (slcan_unesc dp st s).2
      = (if st.err = false ∧ st.rcount > 4 then slc_bump dp st.rbuff else none) := by
  rw [unesc_term dp st s hterm]
  exact ⟨rfl, rfl, rfl⟩

theorem C6_terminator_reset_witness :
    ((13 : Nat) = 13 ∨ (13 : Nat) = 7) ∧
    ((slcan_unesc (fun _ => true)
        ⟨5, [116, 49, 50, 51, 52], true, fun _ => 0, fun _ => 0⟩ 13).1.rcount = 0 ∧
     (slcan_unesc (fun _ => true)
        ⟨5, [116, 49, 50, 51, 52], true, fun _ => 0, fun _ => 0⟩ 13).1.err = false ∧
     (slcan_unesc (fun _ => true)
        ⟨5, [116, 49, 50, 51, 52], true, fun _ => 0, fun _ => 0⟩ 13).2
       = (if (true = false ∧ (5 : Nat) > 4)
          then slc_bump (fun _ => true) [116, 49, 50, 51, 52] else none)) :=
  ⟨Or.inl rfl,
   C6_terminator_reset (fun _ => true)
     ⟨5, [116, 49, 50, 51, 52], true, fun _ => 0, fun _ => 0⟩ 13 (Or.inl rfl)⟩

/-- C8: bit-exact wire scenarios.  Scenario A, C, E encodings are the exact
byte strings "t1230\x0d", "T12ABCDEF2AA55\x0d" and "1t1230\x0d", and
feeding "1t1230\x0d" to the receive path routes the frame to endpoint 1,
not endpoint 0. -/
theorem C8_wire_exact :
    slc_encaps 1 ⟨0x123, 0, List.replicate 8 0⟩ 0 = [116, 49, 50, 51, 48, 13] ∧
    slc_encaps 1 ⟨0x12ABCDEF ||| CAN_EFF_FLAG, 2, [0xAA, 0x55, 0, 0, 0, 0, 0, 0]⟩ 0
      = [84, 49, 50, 65, 66, 67, 68, 69, 70, 50, 65, 65, 53, 53, 13] ∧
    slc_encaps 2 ⟨0x123, 0, List.replicate 8 0⟩ 1 = [49, 116, 49, 50, 51, 48, 13] ∧
    (runRx (fun _ => true) rxInit [49, 116, 49, 50, 51, 48, 13]).2
      = [(⟨0x123, 0, List.replicate 8 0⟩, 1)] := by decide

/-- C9: every frame slc_bump delivers has an 8-byte payload whose entries at
indices dlc..7 are zero, because the payload is cleared before the dlc hex
pairs are decoded into it. -/
theorem C9_tail_zero (dp : Nat → Bool) (rb : List Nat) (fr : CanFrame) (d : Nat)
    (h : slc_bump dp rb = some (fr, d)) :
    fr.data.length = 8 ∧ ∀ i, fr.can_dlc ≤ i → i < 8 → fr.data.getD i 1 = 0 := by
  obtain ⟨_, hck, _, _, hdlc, ds, hds, hdata⟩ := slc_bump_inv h
  have hlt : rb.getD (dlcPosOf rb) 0 - 48 ≤ 8 := by
    simp only [dlc_check, decide_eq_true_eq] at hck
    omega
  have hlen : ds.length = rb.getD (dlcPosOf rb) 0 - 48 :=
    decodeData_length _ rb _ ds hds
  constructor
  · rw [hdata, List.length_append, List.length_replicate, hlen]
    omega
  · intro i hi hi8
    rw [hdata]
    rw [List.getD_append_right _ _ _ _ (by rw [hlen]; omega)]
    apply getD_replicate_lt
    rw [hlen]
    omega

theorem C9_tail_zero_witness :
    slc_bump (fun _ => true) [116, 49, 50, 51, 49, 65, 66]
      = some (⟨0x123, 1, 0xAB :: List.replicate 7 0⟩, 0) ∧
    ((⟨0x123, 1, 0xAB :: List.replicate 7 0⟩ : CanFrame).data.length = 8 ∧
     ∀ i, (⟨0x123, 1, 0xAB :: List.replicate 7 0⟩ : CanFrame).can_dlc ≤ i → i < 8 →
       (⟨0x123, 1, 0xAB :: List.replicate 7 0⟩ : CanFrame).data.getD i 1 = 0) :=
  ⟨by decide,
   C9_tail_zero (fun _ => true) [116, 49, 50, 51, 49, 65, 66]
     ⟨0x123, 1, 0xAB :: List.replicate 7 0⟩ 0 (by decide)⟩

/-- C10: the whole receive path is gated by the interface state of the net
device in slot 0: when it is not running, a delivered block of bytes is
dropped entirely - no buffer, counter or flag change and no frame delivery -
regardless of the state of the other endpoints. -/
theorem C10_rx_gate (running dev_present : Nat → Bool) (st : RxState)
    (bytes : List (Nat × Bool)) (h : running 0 = false) :
    slcan_receive_buf running dev_present st bytes = (st, []) := by
  rw [slcan_receive_buf, if_pos h]

theorem C10_rx_gate_witness :
    (fun i : Nat => decide (i = 1)) 0 = false ∧
    slcan_receive_buf (fun i => decide (i = 1)) (fun _ => true) rxInit
        [(49, false), (116, false), (49, false), (50, false), (51, false), (48, false), (13, false)]
      = (rxInit, []) :=
  ⟨rfl, C10_rx_gate _ _ _ _ rfl⟩

/-- C2: evidence against exactly-once transmit accounting.  On a channel
with two running endpoints, endpoint 0 sends one 6-byte frame which the
transport accepts in full; the first writable notification counts it - but
also counts idle endpoint 1, which has transmitted nothing.  Endpoint 1
then sends a 12-byte frame of which 5 bytes are accepted; the next
notification delivers the remaining 7 bytes and counts endpoint 0 a second
time for its single frame.  Both frames fully drain (xleft = [0, 0]) yet
tx_packets ends at [2, 1]. -/
theorem C2_tx_miscount :
    (tx_run ⟨[0, 0], [0, 0], [true, true], [true, true], false⟩
        [TxEv.send 0 6 6, TxEv.wake [0, 0]]).txp = [1, 1] ∧
    (tx_run ⟨[0, 0], [0, 0], [true, true], [true, true], false⟩
        [TxEv.send 0 6 6, TxEv.wake [0, 0], TxEv.send 1 12 5, TxEv.wake [0, 7]]).txp = [2, 1] ∧
    (tx_run ⟨[0, 0], [0, 0], [true, true], [true, true], false⟩
        [TxEv.send 0 6 6, TxEv.wake [0, 0], TxEv.send 1 12 5, TxEv.wake [0, 7]]).xleft
      = [0, 0] := by decide

theorem foldl_parseStep_bad : ∀ (l : List Nat) (acc : Option Nat),
    (∃ c ∈ l, isHexChar c = false) → l.foldl parseStep acc = none := by
  intro l
  induction l with
  | nil =>
    intro acc h
    simp at h
  | cons c cs ih =>
    intro acc h
    rcases h with ⟨x, hx, hbad⟩
    rcases List.mem_cons.mp hx with rfl | hxs
    · have hstep : parseStep acc x = none := by
        cases acc with
        | none => exact parseStep_none x
        | some a =>
          cases hhx : hexVal x with
          | none => simp [parseStep, hhx]
          | some v =>
            rw [isHexChar, hhx] at hbad
            simp at hbad
      rw [List.foldl_cons, hstep, foldl_parseStep_none]
    · rw [List.foldl_cons]
      exact ih _ ⟨x, hxs, hbad⟩

theorem parseHexStr_none_of_bad {l : List Nat}
    (h : l = [] ∨ l.all isHexChar = false) : parseHexStr l = none := by
  rcases h with rfl | h
  · rfl
  · rw [parseHexStr]
    split
    · rfl
    · apply foldl_parseStep_bad
      rw [List.all_eq_false] at h
      obtain ⟨x, hx, hbad⟩ := h
      exact ⟨x, hx, by simpa using hbad⟩

/-- C7 counterexample: the buffer t1NULNUL0 has a non-hex byte (NUL) inside
its 3-character id span, yet slc_bump delivers a frame with the truncated
id 1 to endpoint 0, incrementing its rx counters - the id string handed to
strict_strtoul ends at the first NUL. -/
theorem C7_nul_truncation_cex :
    ((idSpan [116, 49, 0, 0, 48]).all isHexChar = false) ∧
    slc_bump (fun _ => true) [116, 49, 0, 0, 48]
      = some (⟨1, 0, List.replicate 8 0⟩, 0) ∧
    slc_bump_rx (fun _ => true) (fun _ => (0, 0)) [116, 49, 0, 0, 48] 0 = (1, 0) := by
  decide

/-- C7 amended: a terminated buffer is dropped with no frame and no rx
counter change when the type character is invalid, the DLC digit is out of
range, the id string (the id span truncated at its first NUL byte) is empty
or contains a non-hex character, any of the 2*dlc payload characters is
non-hex, or the destination endpoint has no live device; rx counters change
only on successful delivery. -/
theorem C7_malformed_dropped (dp : Nat → Bool) (rb : List Nat)
    (h : typeOK (cmdOf rb) = false ∨
         dlc_check (rb.getD (dlcPosOf rb) 0) = false ∨
         idStr rb = [] ∨ (idStr rb).all isHexChar = false ∨
         (∃ j, j < 2 * (rb.getD (dlcPosOf rb) 0 - 48) ∧
            isHexChar (rb.getD (dlcPosOf rb + 1 + j) 0) = false) ∨
         dp (destOf rb) = false) :
    slc_bump dp rb = none ∧ ∀ stats, slc_bump_rx dp stats rb = stats := by
  have hnone : slc_bump dp rb = none := by
    rcases h with h | h | h | h | h | h
    · simp [slc_bump, h]
    · have h2 : dlc_check (rb[dlcPosOf rb]?.getD 0) = false := by
        rw [← List.getD_eq_getElem?_getD]
        exact h
      simp [slc_bump, h, h2]
    · have hp : parseHexStr (idStr rb) = none := parseHexStr_none_of_bad (Or.inl h)
      simp [slc_bump, hp]
    · have hp : parseHexStr (idStr rb) = none := parseHexStr_none_of_bad (Or.inr h)
      simp [slc_bump, hp]
    · have hdd : decodeData rb (dlcPosOf rb + 1) (rb.getD (dlcPosOf rb) 0 - 48) = none := by
        apply decodeData_none_of_bad
        obtain ⟨j, hj, hb⟩ := h
        exact ⟨j, hj, hb⟩
      have hdd2 : decodeData rb (dlcPosOf rb + 1) (rb[dlcPosOf rb]?.getD 0 - 48) = none := by
        rw [← List.getD_eq_getElem?_getD]
        exact hdd
      cases hp : parseHexStr (idStr rb) with
      | none => simp [slc_bump, hp]
      | some v => simp [slc_bump, hp, hdd, hdd2]
    · cases hp : parseHexStr (idStr rb) with
      | none => simp [slc_bump, hp]
      | some v =>
        cases hdd : decodeData rb (dlcPosOf rb + 1) (rb.getD (dlcPosOf rb) 0 - 48) with
        | none =>
          have hdd2 : decodeData rb (dlcPosOf rb + 1) (rb[dlcPosOf rb]?.getD 0 - 48) = none := by
            rw [← List.getD_eq_getElem?_getD]
            exact hdd
          simp [slc_bump, hp, hdd, hdd2]
        | some ds =>
          have hdd2 : decodeData rb (dlcPosOf rb + 1) (rb[dlcPosOf rb]?.getD 0 - 48) = some ds := by
            rw [← List.getD_eq_getElem?_getD]
            exact hdd
          simp [slc_bump, hp, hdd, hdd2, h]
  refine ⟨hnone, fun stats => ?_⟩
  simp only [slc_bump_rx, hnone]

theorem C7_malformed_dropped_witness :
    (typeOK (cmdOf [116, 49, 50, 51, 57]) = false ∨
     dlc_check (([116, 49, 50, 51, 57] : List Nat).getD (dlcPosOf [116, 49, 50, 51, 57]) 0) = false ∨
     idStr [116, 49, 50, 51, 57] = [] ∨
     (idStr [116, 49, 50, 51, 57]).all isHexChar = false ∨
     (∃ j, j < 2 * (([116, 49, 50, 51, 57] : List Nat).getD (dlcPosOf [116, 49, 50, 51, 57]) 0 - 48) ∧
        isHexChar (([116, 49, 50, 51, 57] : List Nat).getD
          (dlcPosOf [116, 49, 50, 51, 57] + 1 + j) 0) = false) ∨
     (fun _ : Nat => true) (destOf [116, 49, 50, 51, 57]) = false) ∧
    (slc_bump (fun _ => true) [116, 49, 50, 51, 57] = none ∧
     ∀ stats, slc_bump_rx (fun _ => true) stats [116, 49, 50, 51, 57] = stats) :=
  ⟨Or.inr (Or.inl (by decide)),
   C7_malformed_dropped (fun _ => true) [116, 49, 50, 51, 57]
     (Or.inr (Or.inl (by decide)))⟩

theorem runRx_overfill (dp : Nat → Bool) (bs : List Nat)
    (hmem : ∀ b ∈ bs, b ≠ 13 ∧ b ≠ 7) (hlen : SLC_MTU < bs.length) :
    runRx dp rxInit bs =
      ({ rcount := SLC_MTU, rbuff := bs.take SLC_MTU, err := true,
         rx_over := fun i => if i = 0 then 1 else 0, rx_errors := fun _ => 0 }, []) := by
  obtain ⟨c, rest, hsplit⟩ : ∃ c rest, bs.drop SLC_MTU = c :: rest := by
    cases hd : bs.drop SLC_MTU with
    | nil =>
      have hld := List.length_drop SLC_MTU bs
      rw [hd] at hld
      simp at hld
      omega
    | cons c r => exact ⟨c, r, rfl⟩
  have hbs : bs = bs.take SLC_MTU ++ (c :: rest) := by
    rw [← hsplit, List.take_append_drop]
  have htl : (bs.take SLC_MTU).length = SLC_MTU := by
    rw [List.length_take]
    omega
  have hmem1 : ∀ b ∈ bs.take SLC_MTU, b ≠ 13 ∧ b ≠ 7 :=
    fun b hb => hmem b (List.take_subset _ _ hb)
  have hmemc : c ≠ 13 ∧ c ≠ 7 := by
    apply hmem
    rw [hbs]
    exact List.mem_append_right _ (List.mem_cons_self _ _)
  have hmemr : ∀ b ∈ rest, b ≠ 13 ∧ b ≠ 7 := by
    intro b hb
    apply hmem
    rw [hbs]
    exact List.mem_append_right _ (List.mem_cons_of_mem _ hb)
  have hacc : runRx dp rxInit (bs.take SLC_MTU)
      = (⟨SLC_MTU, bs.take SLC_MTU, false, fun _ => 0, fun _ => 0⟩, []) := by
    rw [runRx_accum dp _ rxInit rfl hmem1 (by simp [rxInit, htl])]
    simp [rxInit, htl]
  have hov : slcan_unesc dp ⟨SLC_MTU, bs.take SLC_MTU, false, fun _ => 0, fun _ => 0⟩ c
      = (⟨SLC_MTU, bs.take SLC_MTU, true, fun i => if i = 0 then 1 else 0, fun _ => 0⟩, none) := by
    rw [unesc_overflow dp _ c hmemc rfl (by simp)]
  conv_lhs => rw [hbs]
  rw [runRx_append, hacc]
  simp only []
  rw [runRx, hov]
  simp only []
  rw [runRx_discard dp rest _ rfl hmemr]
  simp

/-- C3: filling the receive buffer past capacity without a terminator sets
the error flag and bumps rx_over_errors by exactly 1, always on endpoint 0
whatever the (unparsed) destination digit was; the following terminator
yields no frame and clears the flag and counter; the next complete valid
frame then decodes normally, with the overflow count still exactly 1. -/
theorem C3_overflow_recovery (dp : Nat → Bool) (bs : List Nat)
    (mux d base dlc : Nat) (ext rtr : Bool) (data : List Nat)
    (hmem : ∀ b ∈ bs, b ≠ 13 ∧ b ≠ 7) (hlen : SLC_MTU < bs.length)
    (hbase : base < if ext then 2 ^ 29 else 2 ^ 11) (hdlc : dlc ≤ 8)
    (hlen8 : data.length = 8) (hdata : ∀ b ∈ data, b < 256)
    (hmux : mux ≤ 10) (hd : d < mux) (hdp : dp d = true) :
    (runRx dp rxInit bs).2 = [] ∧
    (runRx dp rxInit bs).1.err = true ∧
    (∀ i, (runRx dp rxInit bs).1.rx_over i = if i = 0 then 1 else 0) ∧
    (runRx dp (runRx dp rxInit bs).1 [13]).2 = [] ∧
    (runRx dp (runRx dp rxInit bs).1 [13]).1.err = false ∧
    (runRx dp (runRx dp rxInit bs).1 [13]).1.rcount = 0 ∧
    (runRx dp (runRx dp (runRx dp rxInit bs).1 [13]).1
        (slc_encaps mux ⟨mkCanId ext rtr base, dlc, data⟩ d)).2
      = [(⟨mkCanId ext rtr base, dlc, data.take dlc ++ List.replicate (8 - dlc) 0⟩, d)] ∧
    (∀ i, (runRx dp (runRx dp (runRx dp rxInit bs).1 [13]).1
        (slc_encaps mux ⟨mkCanId ext rtr base, dlc, data⟩ d)).1.rx_over i
      = if i = 0 then 1 else 0) := by
  have h1 := runRx_overfill dp bs hmem hlen
  have h2 : runRx dp (runRx dp rxInit bs).1 [13]
      = (⟨0, [], false, fun i => if i = 0 then 1 else 0, fun _ => 0⟩, []) := by
    rw [h1, runRx_single_term]
    rw [if_neg (by simp)]
    rfl
  have h3 : runRx dp (runRx dp (runRx dp rxInit bs).1 [13]).1
        (slc_encaps mux ⟨mkCanId ext rtr base, dlc, data⟩ d)
      = (⟨0, [], false, fun i => if i = 0 then 1 else 0, fun _ => 0⟩,
         [(⟨mkCanId ext rtr base, dlc, data.take dlc ++ List.replicate (8 - dlc) 0⟩, d)]) := by
    rw [h2]
    exact runRx_encaps_clean dp ⟨0, [], false, fun i => if i = 0 then 1 else 0, fun _ => 0⟩
      mux d base dlc ext rtr data hbase hdlc hlen8 hdata hmux hd hdp rfl rfl rfl
  refine ⟨?_, ?_, ?_, ?_, ?_, ?_, ?_, ?_⟩
  · rw [h1]
  · rw [h1]
  · intro i
    rw [h1]
  · rw [h2]
  · rw [h2]
  · rw [h2]
  · rw [h3]
  · intro i
    rw [h3]

theorem C3_overflow_recovery_witness :
    (∀ b ∈ List.replicate 35 48, b ≠ 13 ∧ b ≠ 7) ∧ SLC_MTU < (List.replicate 35 48).length ∧
    ((0x123 : Nat) < if false then 2 ^ 29 else 2 ^ 11) ∧ (0 : Nat) ≤ 8 ∧
    (List.replicate 8 0).length = 8 ∧ (∀ b ∈ List.replicate 8 0, b < 256) ∧
    (1 : Nat) ≤ 10 ∧ (0 : Nat) < 1 ∧ (fun _ : Nat => true) 0 = true ∧
    ((runRx (fun _ => true) rxInit (List.replicate 35 48)).2 = [] ∧
     (runRx (fun _ => true) rxInit (List.replicate 35 48)).1.err = true ∧
     (∀ i, (runRx (fun _ => true) rxInit (List.replicate 35 48)).1.rx_over i
        = if i = 0 then 1 else 0) ∧
     (runRx (fun _ => true) (runRx (fun _ => true) rxInit (List.replicate 35 48)).1 [13]).2 = [] ∧
     (runRx (fun _ => true) (runRx (fun _ => true) rxInit (List.replicate 35 48)).1 [13]).1.err
        = false ∧
     (runRx (fun _ => true) (runRx (fun _ => true) rxInit (List.replicate 35 48)).1 [13]).1.rcount
        = 0 ∧
     (runRx (fun _ => true)
        (runRx (fun _ => true) (runRx (fun _ => true) rxInit (List.replicate 35 48)).1 [13]).1
        (slc_encaps 1 ⟨mkCanId false false 0x123, 0, List.replicate 8 0⟩ 0)).2
       = [(⟨mkCanId false false 0x123, 0,
            (List.replicate 8 0).take 0 ++ List.replicate (8 - 0) 0⟩, 0)] ∧
     (∀ i, (runRx (fun _ => true)
        (runRx (fun _ => true) (runRx (fun _ => true) rxInit (List.replicate 35 48)).1 [13]).1
        (slc_encaps 1 ⟨mkCanId false false 0x123, 0, List.replicate 8 0⟩ 0)).1.rx_over i
       = if i = 0 then 1 else 0)) :=
  ⟨by decide, by decide, by decide, by decide, by decide, by decide, by decide, by decide, rfl,
   C3_overflow_recovery (fun _ => true) (List.replicate 35 48) 1 0 0x123 0 false false
     (List.replicate 8 0) (by decide) (by decide) (by decide) (by decide) (by decide)
     (by decide) (by decide) (by decide) rfl⟩
